import Mathlib

/-!
Shallow embedding of the component scanner in `src/scan.ts`.

The scanner discovers source files under configured directories (`ScanDir`),
derives a logical component name for each file, and emits an eager and a lazy
`Component` record per accepted file.  External collaborators are modelled as
follows, and the rest of the code is translated line by line:

* the `globby` file matching engine is an oracle parameter
  (`GlobbyFn`): given the configured pattern, the directory path (`cwd`) and
  the ignore list it yields the list of relative file paths;
* the lodash casing utilities `camelCase` / `kebabCase` / `upperFirst` are
  modelled for ASCII strings with the standard word-splitting semantics
  (split on non-alphanumeric separators and on case transitions);
* the Node `path` module is modelled with its posix semantics
  (`isWindows = false`, `sep = "/"`), so the windows-only branch of the
  scanner is dead code here;
* `console.warn` output is modelled as an explicit list of `Warning`
  records carrying exactly the data interpolated into the warned message;
* the in-place `dirs.sort(...)` (stable by the ECMAScript spec) is modelled
  by the pure stable sort `sortDirs`; the array the caller passed holds
  `sortDirs dirs` after the call.
-/

namespace Scan

/-- Builds a string from an explicit character list. -/
def strOf (l : List Char) : String := String.mk l

/-- ASCII lowercase letter test, as used by the lodash word splitter. -/
def isAsciiLower (c : Char) : Bool := 'a' ≤ c && c ≤ 'z'

/-- ASCII uppercase letter test, as used by the lodash word splitter. -/
def isAsciiUpper (c : Char) : Bool := 'A' ≤ c && c ≤ 'Z'

/-- ASCII digit test, as used by the lodash word splitter. -/
def isAsciiDigit (c : Char) : Bool := '0' ≤ c && c ≤ '9'

/-- Alphanumeric test: characters that belong to a word. -/
def isAlnum (c : Char) : Bool := isAsciiLower c || isAsciiUpper c || isAsciiDigit c

/-- Splits a character list into its maximal alphanumeric runs, dropping the
separator characters (anything non-alphanumeric). -/
def alnumRunsAux : List Char → List Char → List (List Char)
  | cur, [] => if cur.isEmpty then [] else [cur.reverse]
  | cur, c :: cs =>
    if isAlnum c then alnumRunsAux (c :: cur) cs
    else if cur.isEmpty then alnumRunsAux [] cs
    else cur.reverse :: alnumRunsAux [] cs

/-- Maximal alphanumeric runs of a character list. -/
def alnumRuns (l : List Char) : List (List Char) := alnumRunsAux [] l

/-- Word boundary inside an alphanumeric run, lodash style: a letter/digit
switch, a lower-to-upper transition, or the last upper of an upper run that is
followed by a lower (`FOOBar` splits as `FOO`/`Bar`). `p` is the previous
character, `c` the current one, `rest` the remaining characters. -/
def caseBoundary (p c : Char) (rest : List Char) : Bool :=
  (isAsciiDigit p != isAsciiDigit c) ||
  (isAsciiLower p && isAsciiUpper c) ||
  (isAsciiUpper p && isAsciiUpper c &&
    (match rest with | n :: _ => isAsciiLower n | [] => false))

/-- Splits one alphanumeric run at its case boundaries. -/
def caseRunsAux : List Char → List Char → List (List Char)
  | cur, [] => if cur.isEmpty then [] else [cur.reverse]
  | cur, c :: cs =>
    match cur with
    | [] => caseRunsAux [c] cs
    | p :: _ =>
      if caseBoundary p c cs then cur.reverse :: caseRunsAux [c] cs
      else caseRunsAux (c :: cur) cs

/-- Case-boundary word split of one alphanumeric run. -/
def caseRuns (l : List Char) : List (List Char) := caseRunsAux [] l

/-- The lodash word splitter: alphanumeric runs further split at case
boundaries. -/
def wordsOf (s : String) : List (List Char) := (alnumRuns s.data).flatMap caseRuns

/-- Lowercases every character of a word. -/
def lowerWord (w : List Char) : List Char := w.map Char.toLower

/-- Lodash `capitalize`: the word lowercased, then its first character
uppercased. -/
def capWord (w : List Char) : List Char :=
  match lowerWord w with
  | [] => []
  | c :: cs => c.toUpper :: cs

/-- Lodash `camelCase`: first word lowercased, following words capitalized,
all concatenated. -/
def camelCase (s : String) : String :=
  match wordsOf s with
  | [] => ""
  | w :: ws => strOf (lowerWord w ++ ws.flatMap capWord)

/-- Lodash `upperFirst`: uppercases only the first character. -/
def upperFirst (s : String) : String :=
  match s.data with
  | [] => ""
  | c :: cs => strOf (c.toUpper :: cs)

/-- Lodash `kebabCase`: lowercased words joined with a dash. -/
def kebabCase (s : String) : String :=
  String.intercalate "-" ((wordsOf s).map fun w => strOf (lowerWord w))

/-- The scanner's `pascalCase = upperFirst ∘ camelCase` helper
(`src/scan.ts` line 6). -/
def pascalCase (s : String) : String := upperFirst (camelCase s)

/-- JavaScript `String.prototype.startsWith` for string arguments. -/
def strStartsWith (s pre : String) : Bool := pre.data.isPrefixOf s.data

/-- JavaScript `String.prototype.endsWith` for string arguments. -/
def strEndsWith (s post : String) : Bool := post.data.isSuffixOf s.data

/-- Splits a string at every occurrence of the character `sepc`
(JavaScript `split` semantics: `"" ↦ [""]`, separators kept as gaps). -/
def splitCharAux (sepc : Char) : List Char → List Char → List String
  | cur, [] => [strOf cur.reverse]
  | cur, c :: cs =>
    if c = sepc then strOf cur.reverse :: splitCharAux sepc [] cs
    else splitCharAux sepc (c :: cur) cs

/-- Splits a string on a single separator character. -/
def splitChar (sepc : Char) (s : String) : List String := splitCharAux sepc [] s.data

/-- First index at which `pat` occurs as a substring (character positions). -/
def findSubstrAux (pat : List Char) : List Char → Nat → Option Nat
  | [], i => if pat.isEmpty then some i else none
  | c :: cs, i =>
    if pat.isPrefixOf (c :: cs) then some i
    else findSubstrAux pat cs (i + 1)

/-- JavaScript `String.prototype.replace` with a plain-string pattern: only
the first occurrence is replaced; an empty pattern matches at the start. -/
def replaceFirst (s pat repl : String) : String :=
  if pat = "" then repl ++ s
  else
    match findSubstrAux pat.data s.data 0 with
    | none => s
    | some i => strOf (s.data.take i ++ repl.data ++ s.data.drop (i + pat.data.length))

/-- The global replacement `.replace(/\\/g, '/')` used on `shortPath`. -/
def slashify (s : String) : String :=
  strOf (s.data.map fun c => if c = '\\' then '/' else c)

/-- The replacement `.replace(/^\//, '')`: drops a single leading slash. -/
def dropLeadingSlash (s : String) : String :=
  if strStartsWith s "/" then strOf (s.data.drop 1) else s

/-- The replacement `pathPrefix.replace(/s$/, '')`: strips one trailing `s`. -/
def stripTrailingS (p : String) : String :=
  if strEndsWith p "s" then strOf (p.data.take (p.data.length - 1)) else p

/-- Drops the trailing `/` characters of a path (Node `path` helper). -/
def dropTrailingSlashes (s : String) : String :=
  strOf ((s.data.reverse.dropWhile fun c => c = '/').reverse)

/-- Last index of the character `c` in the list, if any. -/
def lastIdxOf (c : Char) (l : List Char) : Option Nat :=
  (l.foldl (fun (st : Nat × Option Nat) d =>
    (st.1 + 1, if d = c then some st.1 else st.2)) (0, none)).2

/-- Node posix `path.basename(p)`: the part after the last slash, trailing
slashes ignored. -/
def basename1 (p : String) : String :=
  let q := dropTrailingSlashes p
  match lastIdxOf '/' q.data with
  | none => q
  | some i => strOf (q.data.drop (i + 1))

/-- Node posix `path.basename(p, ext)`: like `basename1`, additionally
stripping the suffix `ext` unless the basename is exactly `ext`. -/
def basename2 (p ext : String) : String :=
  let b := basename1 p
  if ext ≠ "" ∧ b ≠ ext ∧ strEndsWith b ext = true then
    strOf (b.data.take (b.data.length - ext.data.length))
  else b

/-- Node posix `path.extname(p)`: the suffix of the basename from its last
dot, empty when the dot is leading or missing (and for `..`). -/
def extname (p : String) : String :=
  let b := (basename1 p).data
  if b = ['.', '.'] then ""
  else
    match lastIdxOf '.' b with
    | none => ""
    | some 0 => ""
    | some i => strOf (b.drop i)

/-- Node posix `path.dirname(p)`. -/
def dirname (p : String) : String :=
  let q := dropTrailingSlashes p
  if q = "" then (if strStartsWith p "/" then "/" else ".")
  else
    match lastIdxOf '/' q.data with
    | none => "."
    | some i =>
      let d := dropTrailingSlashes (strOf (q.data.take i))
      if d = "" then (if strStartsWith p "/" then "/" else ".") else d

/-- Path segment normalization used by Node `join`/`resolve`: empty and `.`
segments are dropped, `..` pops the previous segment (kept at the front of a
relative path, dropped at the root of an absolute one). -/
def normParts (isAbs : Bool) : List String → List String → List String
  | acc, [] => acc.reverse
  | acc, s :: rest =>
    if s = "" ∨ s = "." then normParts isAbs acc rest
    else if s = ".." then
      match acc with
      | [] => if isAbs then normParts isAbs [] rest else normParts isAbs [".."] rest
      | p :: acc' =>
        if p = ".." then normParts isAbs (s :: p :: acc') rest
        else normParts isAbs acc' rest
    else normParts isAbs (s :: acc) rest

/-- Node posix `path.join(a, b)`: concatenation followed by normalization. -/
def join (a b : String) : String :=
  let joined := if a = "" then b else if b = "" then a else a ++ "/" ++ b
  if joined = "" then "."
  else
    let isAbs := strStartsWith joined "/"
    let parts := normParts isAbs [] (splitChar '/' joined)
    let body := String.intercalate "/" parts
    if isAbs then "/" ++ body
    else if body = "" then "." else body

/-- Normalized segment list of a path, for `relative`. -/
def pathSegsNorm (p : String) : List String :=
  normParts (strStartsWith p "/") [] (splitChar '/' p)

/-- Drops the common leading segments of two segment lists. -/
def dropCommonAux : List String → List String → List String × List String
  | a :: as, b :: bs => if a = b then dropCommonAux as bs else (a :: as, b :: bs)
  | as, bs => (as, bs)

/-- Node posix `path.relative(src, dst)` for two paths of the same kind:
walks up out of the remaining `src` segments and down the remaining `dst`
segments. -/
def relative (src dst : String) : String :=
  let p := dropCommonAux (pathSegsNorm src) (pathSegsNorm dst)
  String.intercalate "/" (p.1.map (fun _ => "..") ++ p.2)

/-- Path depth as computed by `sortDirsByPathLength`
(`src/scan.ts` line 32): `path.split(/[\\/]/).filter(Boolean).length`. -/
def pathDepth (p : String) : Nat :=
  (((splitChar '/' p).flatMap (splitChar '\\')).filter fun x => x ≠ "").length

/-- The `global` option of a `ScanDir`: `boolean | 'dev'`, possibly absent. -/
inductive JsGlobal where
  | undef : JsGlobal
  | flag : Bool → JsGlobal
  | dev : JsGlobal
deriving DecidableEq

/-- JavaScript `Boolean(global)`: `undefined` and `false` are falsy, `true`
and the non-empty string `'dev'` are truthy. -/
def JsGlobal.toBool : JsGlobal → Bool
  | .undef => false
  | .flag b => b
  | .dev => true

/-- The `pattern` option of a `ScanDir`: `string | string[]`. -/
inductive Patterns where
  | single : String → Patterns
  | multi : List String → Patterns
deriving DecidableEq

/-- The `Component` record produced by the scanner (`src/scan.ts`
lines 9-20). Field order and optionality follow the TypeScript interface;
`async?: boolean` is an `Option Bool` that is `none` when the field is
absent. -/
structure Component where
  pascalName : String
  kebabName : String
  «import» : String
  asyncImport : String
  «export» : String
  filePath : String
  shortPath : String
  async : Option Bool := none
  chunkName : String
  global : Bool
deriving DecidableEq

/-- A `ScanDir` configuration (`src/scan.ts` lines 22-29).  The `prefix`
field is called `pfx` here because `prefix` is not a usable identifier in
this development; `extendComponent` returning `void` is `Option.none`. -/
structure ScanDir where
  path : String
  pattern : Option Patterns := none
  ignore : Option (List String) := none
  pfx : Option String := none
  global : JsGlobal := .undef
  extendComponent : Option (Component → Option Component) := none

/-- The payload of the `console.warn` call on a naming collision
(`src/scan.ts` lines 74-77): the clashing resolved name, the path of the
newly scanned file, and the path previously recorded for that name. -/
structure Warning where
  componentName : String
  filePath : String
  existingFilePath : String
deriving DecidableEq

/-- The run-scoped mutable state of `scanComponents`, threaded explicitly:
the output list, the warnings printed so far, the claimed absolute file
paths (`filePaths` set, in insertion order) and the fully scanned directory
roots (`scannedPaths`). -/
structure ScanState where
  components : List Component
  warnings : List Warning
  filePaths : List String
  scannedPaths : List String

/-- The external `globby` capability: pattern (behind the non-null assertion
`pattern!`), `cwd`, and `ignore` produce relative file paths. -/
def GlobbyFn : Type := Option Patterns → String → List String → List String

/-- The scanner's lazy marker `LAZY_PREFIX = 'lazy'` (`src/scan.ts` line 5). -/
def lazyMarker : String := "lazy"

/-- `prefixComponent` (`src/scan.ts` lines 35-41): a name already starting
(case-sensitively) with the raw prefix string is kept, otherwise the cased
prefix is prepended; all other fields are spread through unchanged.  The
`prefix: string = ''` default parameter is the `Option.getD ""`. -/
def prefixComponent (pfx : Option String) (c : Component) : Component :=
  let p := pfx.getD ""
  { c with
    pascalName := if strStartsWith c.pascalName p then c.pascalName
                  else pascalCase p ++ c.pascalName
    kebabName := if strStartsWith c.kebabName p then c.kebabName
                 else kebabCase p ++ "-" ++ c.kebabName }

/-- Comparator semantics of `dirs.sort(sortDirsByPathLength)`: `a` may stay
before `b` exactly when `pathDepth b ≤ pathDepth a` (descending depth). -/
def dirLe (a b : ScanDir) : Bool := pathDepth b.path ≤ pathDepth a.path

/-- Stable insertion of one directory into an already depth-sorted list. -/
def insertDir (a : ScanDir) : List ScanDir → List ScanDir
  | [] => [a]
  | b :: bs => if dirLe a b then a :: b :: bs else b :: insertDir a bs

/-- The result of `dirs.sort(sortDirsByPathLength)`: the stable sort of the
directories by descending `pathDepth` (ECMAScript `Array.prototype.sort` is
stable, so its outcome is this unique stable order; the sort happens in
place, so this is also the content of the caller's array after the call). -/
def sortDirs : List ScanDir → List ScanDir
  | [] => []
  | a :: as => insertDir a (sortDirs as)

/-- Name resolution for one discovered file (`src/scan.ts` lines 62-70):
the pascal-cased basename, replaced by the directory-derived `pathPrefix`
for an `index` file or a file named like its parent directory, and otherwise
prepended with `pathPrefix` and the separator unless it already starts with
`pathPrefix` minus one trailing `s`. -/
def resolveComponentName (root filePath : String) : String :=
  let componentName := pascalCase (basename2 filePath (extname filePath))
  let parentDirName := pascalCase (basename1 (dirname filePath))
  let pathPrefix := pascalCase (relative root (dirname filePath))
  if componentName = "Index" ∨ componentName = parentDirName then pathPrefix
  else if ¬ (strStartsWith componentName (stripTrailingS pathPrefix) = true) then
    pathPrefix ++ "/" ++ componentName
  else componentName

/-- The default synchronous binding `require('${filePath}').${export}`
(`src/scan.ts` line 109). -/
def requireSnippet (filePath exportName : String) : String :=
  "require(\x27" ++ filePath ++ "\x27)." ++ exportName

/-- The default `asyncImport` snippet (`src/scan.ts` line 110): a thunk that
dynamically imports the file, tagged with the webpack chunk name, resolving
to the named export or the whole module. -/
def asyncImportSnippet (filePath chunkName exportName : String) : String :=
  "function () \x7b return import(\x27" ++ filePath ++
    "\x27 /* webpackChunkName: \"" ++ chunkName ++
    "\" */).then(function(m) \x7b return m[\x27" ++ exportName ++
    "\x27] || m \x7d) \x7d"

/-- Association-list lookup with JavaScript `Map.get` semantics. -/
def lookupName (k : String) : List (String × String) → Option String
  | [] => none
  | (a, v) :: rest => if a = k then some v else lookupName k rest

/-- Builds the eager/lazy pair pushed for one accepted file
(`src/scan.ts` lines 82-121, posix branch): casing of the resolved name,
`shortPath`/`chunkName` derivation, directory prefixing, the optional
`extendComponent` hook, default `import`/`asyncImport` snippets, and the two
pushed records. -/
def buildPair (srcDir : String) (d : ScanDir) (filePath componentName : String) :
    Component × Component :=
  let pascalName := pascalCase componentName
  let kebabName := kebabCase componentName
  let shortPath := dropLeadingSlash (slashify (replaceFirst filePath srcDir ""))
  let chunkName := replaceFirst shortPath (extname shortPath) ""
  let c0 : Component :=
    { pascalName := pascalName
      kebabName := kebabName
      «import» := ""
      asyncImport := ""
      «export» := "default"
      filePath := filePath
      shortPath := shortPath
      async := none
      chunkName := chunkName
      global := d.global.toBool }
  let c1 := prefixComponent d.pfx c0
  let c2 := match d.extendComponent with
    | some f => (f c1).getD c1
    | none => c1
  let imp := if c2.«import» = "" then requireSnippet c2.filePath c2.«export»
             else c2.«import»
  let aimp := if c2.asyncImport = "" then
                asyncImportSnippet c2.filePath c2.chunkName c2.«export»
              else c2.asyncImport
  ({ c2 with «import» := imp },
   prefixComponent (some lazyMarker) { c2 with async := some true, «import» := aimp })

/-- One iteration of the inner file loop of `scanComponents`
(`src/scan.ts` lines 51-121): skip when the path falls under an already
scanned root (JavaScript truthiness: a found empty root does not trigger the
skip) or was already claimed; otherwise claim it, resolve the name, either
warn on a per-directory name collision or push the eager/lazy pair. -/
def processFile (srcDir : String) (d : ScanDir) :
    List (String × String) × ScanState → String → List (String × String) × ScanState :=
  fun acc _file =>
    let resolvedNames := acc.1
    let st := acc.2
    let filePath := join d.path _file
    if ((st.scannedPaths.find? fun dd => strStartsWith filePath dd).getD "") ≠ "" then
      (resolvedNames, st)
    else if filePath ∈ st.filePaths then (resolvedNames, st)
    else
      let st1 : ScanState := { st with filePaths := st.filePaths ++ [filePath] }
      let componentName := resolveComponentName d.path filePath
      match lookupName componentName resolvedNames with
      | some existing =>
        (resolvedNames,
         { st1 with warnings := st1.warnings ++ [⟨componentName, filePath, existing⟩] })
      | none =>
        let pair := buildPair srcDir d filePath componentName
        (resolvedNames ++ [(componentName, filePath)],
         { st1 with components := st1.components ++ [pair.1, pair.2] })

/-- One iteration of the outer directory loop (`src/scan.ts` lines 48-124):
a fresh `resolvedNames` map, the file loop over the glob matches, then the
directory root is recorded as fully scanned. -/
def scanOneDir (globby : GlobbyFn) (srcDir : String) (st : ScanState) (d : ScanDir) :
    ScanState :=
  let files := globby d.pattern d.path (d.ignore.getD [])
  let res := files.foldl (processFile srcDir d) ([], st)
  { res.2 with scannedPaths := res.2.scannedPaths ++ [d.path] }

/-- `scanComponents` (`src/scan.ts` lines 43-127): directories processed in
stable descending-depth order, state threaded through; the value is the
output component list together with the warnings printed along the way. -/
def scanComponents (globby : GlobbyFn) (dirs : List ScanDir) (srcDir : String) :
    List Component × List Warning :=
  let st := (sortDirs dirs).foldl (scanOneDir globby srcDir) ⟨[], [], [], []⟩
  (st.components, st.warnings)

/-- `matcher` (`src/scan.ts` lines 130-136): for each tag in order, the
first component whose pascal or kebab name equals the tag, misses skipped. -/
def matcher (tags : List String) (components : List Component) : List Component :=
  tags.foldl (fun ms tag =>
    match components.find? (fun c => [c.pascalName, c.kebabName].contains tag) with
    | some m => ms ++ [m]
    | none => ms) []

/-! ## Helper lemmas -/

/-- Inserting with `insertDir` is a permutation of consing. -/
theorem insertDir_perm (a : ScanDir) (l : List ScanDir) :
    List.Perm (insertDir a l) (a :: l) := by
  induction l with
  | nil => simp [insertDir]
  | cons b bs ih =>
    by_cases h : dirLe a b = true
    · simp [insertDir, h]
    · simp only [insertDir, h, if_false, Bool.false_eq_true]
      exact ((ih.cons b).trans (List.Perm.swap a b bs))

/-- The stable sort is a permutation of the input. -/
theorem sortDirs_perm (l : List ScanDir) : List.Perm (sortDirs l) l := by
  induction l with
  | nil => simp [sortDirs]
  | cons a as ih => exact (insertDir_perm a (sortDirs as)).trans (ih.cons a)

/-- Inserting into a depth-descending list keeps it depth-descending. -/
theorem insertDir_sorted (a : ScanDir) (l : List ScanDir)
    (h : l.Pairwise fun x y => pathDepth y.path ≤ pathDepth x.path) :
    (insertDir a l).Pairwise fun x y => pathDepth y.path ≤ pathDepth x.path := by
  induction l with
  | nil => simp [insertDir]
  | cons b bs ih =>
    rw [List.pairwise_cons] at h
    by_cases hab : dirLe a b = true
    · have hba : pathDepth b.path ≤ pathDepth a.path := by
        simpa [dirLe, decide_eq_true_eq] using hab
      simp only [insertDir, hab, if_true]
      refine List.Pairwise.cons ?_ (List.Pairwise.cons h.1 h.2)
      intro x hx
      rcases List.mem_cons.mp hx with rfl | hx'
      · exact hba
      · exact le_trans (h.1 x hx') hba
    · have hba : pathDepth a.path ≤ pathDepth b.path := by
        have := hab
        simp only [dirLe, decide_eq_true_eq] at this
        omega
      simp only [insertDir, hab, if_false, Bool.false_eq_true]
      refine List.Pairwise.cons ?_ (ih h.2)
      intro x hx
      have hx' : x = a ∨ x ∈ bs := by
        have := (insertDir_perm a bs).mem_iff.mp hx
        simpa using this
      rcases hx' with rfl | hx'
      · exact hba
      · exact h.1 x hx'

/-- The stable sort is depth-descending. -/
theorem sortDirs_sorted (l : List ScanDir) :
    (sortDirs l).Pairwise fun x y => pathDepth y.path ≤ pathDepth x.path := by
  induction l with
  | nil => simp [sortDirs]
  | cons a as ih => exact insertDir_sorted a (sortDirs as) ih

/-- A key that `lookupName` does not find is not among the stored keys. -/
theorem lookupName_none {k : String} {l : List (String × String)}
    (h : lookupName k l = none) : k ∉ l.map Prod.fst := by
  induction l with
  | nil => simp
  | cons hd tl ih =>
    obtain ⟨a, v⟩ := hd
    by_cases hak : a = k
    · simp [lookupName, hak] at h
    · simp only [lookupName, hak, if_false] at h
      simp only [List.map_cons, List.mem_cons]
      rintro (rfl | hk)
      · exact hak rfl
      · exact ih h hk

/-- Case equation for `processFile`: the file's path falls (truthily) under
an already scanned root, so nothing changes. -/
theorem processFile_scanned_skip (srcDir : String) (d : ScanDir)
    (ns : List (String × String)) (st : ScanState) (f : String)
    (h1 : ((st.scannedPaths.find? fun dd => strStartsWith (join d.path f) dd).getD "") ≠ "") :
    processFile srcDir d (ns, st) f = (ns, st) := by
  simp only [processFile]
  rw [if_pos h1]

/-- Case equation for `processFile`: the file's path was already claimed in
this run, so nothing changes. -/
theorem processFile_claimed_skip (srcDir : String) (d : ScanDir)
    (ns : List (String × String)) (st : ScanState) (f : String)
    (h1 : ¬ ((st.scannedPaths.find? fun dd => strStartsWith (join d.path f) dd).getD "") ≠ "")
    (h2 : join d.path f ∈ st.filePaths) :
    processFile srcDir d (ns, st) f = (ns, st) := by
  simp only [processFile]
  rw [if_neg h1, if_pos h2]

/-- Case equation for `processFile`: the resolved name was already claimed
within this directory scan, so the path is claimed, a warning naming both
file paths is appended, and no component is emitted. -/
theorem processFile_collision (srcDir : String) (d : ScanDir)
    (ns : List (String × String)) (st : ScanState) (f existing : String)
    (h1 : ¬ ((st.scannedPaths.find? fun dd => strStartsWith (join d.path f) dd).getD "") ≠ "")
    (h2 : join d.path f ∉ st.filePaths)
    (h3 : lookupName (resolveComponentName d.path (join d.path f)) ns = some existing) :
    processFile srcDir d (ns, st) f =
      (ns, { st with filePaths := st.filePaths ++ [join d.path f],
                     warnings := st.warnings ++
                       [⟨resolveComponentName d.path (join d.path f), join d.path f, existing⟩] }) := by
  simp only [processFile]
  rw [if_neg h1, if_neg h2, h3]

/-- Case equation for `processFile`: a fresh file with a fresh name claims
both and appends its eager/lazy pair. -/
theorem processFile_emit (srcDir : String) (d : ScanDir)
    (ns : List (String × String)) (st : ScanState) (f : String)
    (h1 : ¬ ((st.scannedPaths.find? fun dd => strStartsWith (join d.path f) dd).getD "") ≠ "")
    (h2 : join d.path f ∉ st.filePaths)
    (h3 : lookupName (resolveComponentName d.path (join d.path f)) ns = none) :
    processFile srcDir d (ns, st) f =
      (ns ++ [(resolveComponentName d.path (join d.path f), join d.path f)],
       { st with filePaths := st.filePaths ++ [join d.path f],
                 components := st.components ++
                   [(buildPair srcDir d (join d.path f) (resolveComponentName d.path (join d.path f))).1,
                    (buildPair srcDir d (join d.path f) (resolveComponentName d.path (join d.path f))).2] }) := by
  simp only [processFile]
  rw [if_neg h1, if_neg h2, h3]

/-- `processFile` keeps the per-directory resolved-name keys duplicate-free:
a new key is only recorded when `lookupName` missed. -/
theorem processFile_names_nodup (srcDir : String) (d : ScanDir)
    (acc : List (String × String) × ScanState) (f : String)
    (h : (acc.1.map Prod.fst).Nodup) :
    (((processFile srcDir d) acc f).1.map Prod.fst).Nodup := by
  obtain ⟨ns, st⟩ := acc
  by_cases h1 : ((st.scannedPaths.find? fun dd =>
      strStartsWith (join d.path f) dd).getD "") ≠ ""
  · rw [processFile_scanned_skip srcDir d ns st f h1]
    exact h
  · by_cases h2 : join d.path f ∈ st.filePaths
    · rw [processFile_claimed_skip srcDir d ns st f h1 h2]
      exact h
    · rcases hlook : lookupName (resolveComponentName d.path (join d.path f)) ns with
        _ | existing
      · rw [processFile_emit srcDir d ns st f h1 h2 hlook]
        simp only [List.map_append, List.map_cons, List.map_nil]
        rw [List.nodup_append]
        refine ⟨h, List.nodup_singleton _, ?_⟩
        intro x hx hx'
        rw [List.mem_singleton] at hx'
        exact lookupName_none hlook (hx' ▸ hx)
      · rw [processFile_collision srcDir d ns st f existing h1 h2 hlook]
        exact h

/-- Folding `processFile` over any file list keeps the resolved-name keys
duplicate-free. -/
theorem foldProcess_names_nodup (srcDir : String) (d : ScanDir) (files : List String)
    (acc : List (String × String) × ScanState) (h : (acc.1.map Prod.fst).Nodup) :
    ((files.foldl (processFile srcDir d) acc).1.map Prod.fst).Nodup := by
  induction files generalizing acc with
  | nil => simpa using h
  | cons f fs ih =>
    rw [List.foldl_cons]
    exact ih _ (processFile_names_nodup srcDir d acc f h)
/-- Evaluation of the cased lazy marker. -/
theorem pascalCase_lazy_eq : pascalCase "lazy" = "Lazy" := by decide

/-- Evaluation of the kebab lazy marker with its separator. -/
theorem kebabCase_lazy_dash : kebabCase "lazy" ++ "-" = "lazy-" := by decide

/-- Relation between the eager component and the lazy component pushed for
one accepted file, in a run without `extendComponent` hooks: same file path,
`async` flag only on the lazy one, the lazy names carry the lazy marker
unless they already start with the literal string `lazy`, both `asyncImport`
fields stay empty, and the `import` fields hold the default require and
dynamic-import snippets. -/
def GoodPair (e l : Component) : Prop :=
  l.filePath = e.filePath ∧
  e.async = none ∧
  l.async = some true ∧
  l.pascalName = (if strStartsWith e.pascalName "lazy" then e.pascalName
                  else "Lazy" ++ e.pascalName) ∧
  l.kebabName = (if strStartsWith e.kebabName "lazy" then e.kebabName
                 else "lazy-" ++ e.kebabName) ∧
  e.asyncImport = "" ∧
  l.asyncImport = "" ∧
  e.«import» = requireSnippet e.filePath e.«export» ∧
  l.«import» = asyncImportSnippet e.filePath e.chunkName e.«export»

/-- In a hook-free directory, the pair built for any accepted file is a
`GoodPair` and its eager component keeps the file path it was built from. -/
theorem buildPair_good (srcDir : String) (d : ScanDir) (hd : d.extendComponent = none)
    (fp name : String) :
    GoodPair (buildPair srcDir d fp name).1 (buildPair srcDir d fp name).2 ∧
    (buildPair srcDir d fp name).1.filePath = fp := by
  simp only [buildPair, hd, prefixComponent, GoodPair, lazyMarker, Option.getD_some]
  simp [pascalCase_lazy_eq, kebabCase_lazy_dash]

/-- The invariant threaded through a hook-free run: the emitted components
decompose into good eager/lazy pairs with pairwise distinct file paths, all
of them claimed in the `filePaths` set. -/
def PairState (st : ScanState) : Prop :=
  ∃ pairs : List (Component × Component),
    st.components = pairs.flatMap (fun p => [p.1, p.2]) ∧
    (∀ p ∈ pairs, GoodPair p.1 p.2) ∧
    ((pairs.map fun p => p.1.filePath).Nodup) ∧
    (∀ p ∈ pairs, p.1.filePath ∈ st.filePaths)

/-- `processFile` preserves the pair invariant for a hook-free directory. -/
theorem processFile_pairs (srcDir : String) (d : ScanDir) (hd : d.extendComponent = none)
    (acc : List (String × String) × ScanState) (f : String) (h : PairState acc.2) :
    PairState ((processFile srcDir d) acc f).2 := by
  obtain ⟨ns, st⟩ := acc
  obtain ⟨pairs, hc, hg, hnd, hmem⟩ := h
  by_cases h1 : ((st.scannedPaths.find? fun dd =>
      strStartsWith (join d.path f) dd).getD "") ≠ ""
  · rw [processFile_scanned_skip srcDir d ns st f h1]
    exact ⟨pairs, hc, hg, hnd, hmem⟩
  · by_cases h2 : join d.path f ∈ st.filePaths
    · rw [processFile_claimed_skip srcDir d ns st f h1 h2]
      exact ⟨pairs, hc, hg, hnd, hmem⟩
    · rcases hlook : lookupName (resolveComponentName d.path (join d.path f)) ns with
        _ | existing
      · rw [processFile_emit srcDir d ns st f h1 h2 hlook]
        refine ⟨pairs ++
          [⟨(buildPair srcDir d (join d.path f) (resolveComponentName d.path (join d.path f))).1,
            (buildPair srcDir d (join d.path f) (resolveComponentName d.path (join d.path f))).2⟩],
          ?_, ?_, ?_, ?_⟩
        · show st.components ++ _ = _
          rw [List.flatMap_append, hc]
          rfl
        · intro p hp
          rcases List.mem_append.mp hp with hp | hp
          · exact hg p hp
          · rw [List.mem_singleton] at hp
            rw [hp]
            exact (buildPair_good srcDir d hd (join d.path f)
              (resolveComponentName d.path (join d.path f))).1
        · rw [List.map_append]
          rw [List.nodup_append]
          refine ⟨hnd, by simp, ?_⟩
          intro x hx hx'
          simp only [List.map_cons, List.map_nil, List.mem_singleton] at hx'
          obtain ⟨p, hp, he⟩ := List.mem_map.mp hx
          refine h2 ?_
          have hxfp : x = join d.path f := by
            rw [hx', (buildPair_good srcDir d hd (join d.path f)
              (resolveComponentName d.path (join d.path f))).2]
          rw [← hxfp]
          exact he ▸ hmem p hp
        · intro p hp
          show p.1.filePath ∈ st.filePaths ++ [join d.path f]
          rcases List.mem_append.mp hp with hp | hp
          · exact List.mem_append_left _ (hmem p hp)
          · rw [List.mem_singleton] at hp
            rw [hp]
            show (buildPair srcDir d (join d.path f)
              (resolveComponentName d.path (join d.path f))).1.filePath ∈ _
            rw [(buildPair_good srcDir d hd (join d.path f)
              (resolveComponentName d.path (join d.path f))).2]
            exact List.mem_append_right _ (List.mem_singleton_self _)
      · rw [processFile_collision srcDir d ns st f existing h1 h2 hlook]
        refine ⟨pairs, hc, hg, hnd, ?_⟩
        intro p hp
        exact List.mem_append_left _ (hmem p hp)

/-- Folding `processFile` over a file list preserves the pair invariant. -/
theorem foldProcess_pairs (srcDir : String) (d : ScanDir) (hd : d.extendComponent = none)
    (files : List String) (acc : List (String × String) × ScanState)
    (h : PairState acc.2) :
    PairState ((files.foldl (processFile srcDir d) acc).2) := by
  induction files generalizing acc with
  | nil => simpa using h
  | cons f fs ih =>
    rw [List.foldl_cons]
    exact ih _ (processFile_pairs srcDir d hd acc f h)

/-- Scanning one hook-free directory preserves the pair invariant. -/
theorem scanOneDir_pairs (g : GlobbyFn) (srcDir : String) (st : ScanState)
    (d : ScanDir) (hd : d.extendComponent = none) (h : PairState st) :
    PairState (scanOneDir g srcDir st d) := by
  obtain ⟨pairs, hc, hg, hnd, hmem⟩ :=
    foldProcess_pairs srcDir d hd (g d.pattern d.path (d.ignore.getD [])) ([], st) h
  exact ⟨pairs, hc, hg, hnd, hmem⟩

/-- Folding over hook-free directories preserves the pair invariant. -/
theorem foldDirs_pairs (g : GlobbyFn) (srcDir : String) :
    ∀ (dirs : List ScanDir) (st : ScanState),
      (∀ d ∈ dirs, d.extendComponent = none) → PairState st →
      PairState (dirs.foldl (scanOneDir g srcDir) st) := by
  intro dirs
  induction dirs with
  | nil => intro st _ h; simpa using h
  | cons d ds ih =>
    intro st hd h
    rw [List.foldl_cons]
    exact ih _ (fun x hx => hd x (List.mem_cons_of_mem d hx))
      (scanOneDir_pairs g srcDir st d (hd d (List.mem_cons_self d ds)) h)

/-- Master pair decomposition of a hook-free `scanComponents` run. -/
theorem scan_pairs (g : GlobbyFn) (dirs : List ScanDir) (srcDir : String)
    (h : ∀ d ∈ dirs, d.extendComponent = none) :
    ∃ pairs : List (Component × Component),
      (scanComponents g dirs srcDir).1 = pairs.flatMap (fun p => [p.1, p.2]) ∧
      (∀ p ∈ pairs, GoodPair p.1 p.2) ∧
      ((pairs.map fun p => p.1.filePath).Nodup) := by
  have h0 : PairState ⟨[], [], [], []⟩ := ⟨[], rfl, by simp, by simp, by simp⟩
  have hall : ∀ d ∈ sortDirs dirs, d.extendComponent = none := fun d hd =>
    h d ((sortDirs_perm dirs).mem_iff.mp hd)
  obtain ⟨pairs, hc, hg, hnd, _⟩ :=
    foldDirs_pairs g srcDir (sortDirs dirs) ⟨[], [], [], []⟩ hall h0
  exact ⟨pairs, hc, hg, hnd⟩
/-! ## Claims -/

/-- Glob oracle for the C1 counterexample: every directory contains one file
`Header.vue`. -/
def c1glob : GlobbyFn := fun _ _ _ => ["Header.vue"]

/-- C1 is false on the code: `resolvedNames` is reset for every directory,
so two files discovered by different `ScanDir`s that resolve to the same
`pascalName` are both emitted and no warning is printed.  Concretely, dirs
`a` and `b` each containing `Header.vue` yield two distinct non-paired eager
Components with `pascalName = "Header"` (different file paths), with an
empty warning list. -/
theorem claim1_counterexample :
    ((scanComponents c1glob [{ path := "a" }, { path := "b" }] "").1.map fun c =>
      (c.pascalName, c.filePath, c.async)) =
      [("Header", "a/Header.vue", none), ("LazyHeader", "a/Header.vue", some true),
       ("Header", "b/Header.vue", none), ("LazyHeader", "b/Header.vue", some true)] ∧
    (scanComponents c1glob [{ path := "a" }, { path := "b" }] "").2 = [] :=
  ⟨by decide, by decide⟩

/-- C1 (amended): name collision detection is only per directory scan and
applies to the raw resolved candidate name (before pascal-casing and
prefixing): within one `ScanDir`, the recorded resolved-name keys are always
duplicate-free — a later file hitting a recorded name is rejected — but no
uniqueness is enforced across different `ScanDir`s of the same run. -/
theorem claim1_theorem : ∀ (srcDir : String) (d : ScanDir) (files : List String)
    (st : ScanState),
    (((files.foldl (processFile srcDir d) ([], st)).1).map Prod.fst).Nodup :=
  fun srcDir d files st => foldProcess_names_nodup srcDir d files ([], st) (by simp)

/-- The naming rule exactly as worded by claim C2 (spec §4.1 step 4): the
base candidate is the pascal-cased extensionless filename; it is replaced by
the path-derived prefix when it equals `"Index"` or the pascal-cased parent
directory name; otherwise the path prefix (with separator) is prepended
unless the base candidate already starts with the path prefix with a single
trailing `s` stripped. -/
def specNamingRule (root filePath : String) : String :=
  let base := pascalCase (basename2 filePath (extname filePath))
  let parentD := pascalCase (basename1 (dirname filePath))
  let pp := pascalCase (relative root (dirname filePath))
  if base = "Index" ∨ base = parentD then pp
  else if ¬ (strStartsWith base (stripTrailingS pp) = true) then pp ++ "/" ++ base
  else base

/-- Glob oracle for the C2 example: the directory contains `Bar/Baz.vue`. -/
def c2glob : GlobbyFn := fun _ _ _ => ["Bar/Baz.vue"]

/-- C2: the naming rule applied by `scanComponents` agrees with the claim's
three-case rule (first match wins), and in particular a file `Baz` inside
directory `Foo/Bar` with scan root `Foo` resolves to `pascalName "BarBaz"`
(its lazy twin to `"LazyBarBaz"`). -/
theorem claim2_theorem :
    (∀ root filePath : String,
      resolveComponentName root filePath = specNamingRule root filePath) ∧
    ((scanComponents c2glob [{ path := "Foo" }] "").1.map fun c => c.pascalName) =
      ["BarBaz", "LazyBarBaz"] :=
  ⟨fun _ _ => rfl, by decide⟩

/-- C4: `scanComponents` processes the configured `ScanDir`s as the stable
descending-path-depth permutation of the caller's list, and a file whose
path (truthily) starts with an already scanned root, or whose path is
already claimed, is skipped outright: `processFile` leaves the state
untouched, so the shallower directory's match produces no Components. -/
theorem claim4_theorem :
    (∀ dirs : List ScanDir, List.Perm (sortDirs dirs) dirs ∧
      (sortDirs dirs).Pairwise fun a b => pathDepth b.path ≤ pathDepth a.path) ∧
    (∀ (srcDir : String) (d : ScanDir) (ns : List (String × String)) (st : ScanState)
        (f : String),
      (((st.scannedPaths.find? fun dd => strStartsWith (join d.path f) dd).getD "") ≠ "" ∨
        join d.path f ∈ st.filePaths) →
      processFile srcDir d (ns, st) f = (ns, st)) := by
  refine ⟨fun dirs => ⟨sortDirs_perm dirs, sortDirs_sorted dirs⟩, ?_⟩
  intro srcDir d ns st f h
  by_cases h1 : ((st.scannedPaths.find? fun dd =>
      strStartsWith (join d.path f) dd).getD "") ≠ ""
  · exact processFile_scanned_skip srcDir d ns st f h1
  · rcases h with h | h
    · exact absurd h h1
    · exact processFile_claimed_skip srcDir d ns st f h1 h

/-- Witness for C4: with root `a/b` already scanned, the shallower dir `a`'s
match `b/X.vue` (absolute path `a/b/X.vue`) is skipped without any change. -/
theorem claim4_witness :
    processFile "" { path := "a" } ([], ⟨[], [], [], ["a/b"]⟩) "b/X.vue" =
      ([], ⟨[], [], [], ["a/b"]⟩) :=
  claim4_theorem.2 "" { path := "a" } [] ⟨[], [], [], ["a/b"]⟩ "b/X.vue" (Or.inl (by decide))

/-- C5: a within-directory name collision is handled non-fatally — the
second file produces zero Components, the state only gains the claimed path
and one warning naming the resolved name, the new file path and the file
path that first claimed the name; the fold then continues with the
remaining files from this state. -/
theorem claim5_theorem (srcDir : String) (d : ScanDir)
    (ns : List (String × String)) (st : ScanState) (f existing : String)
    (h1 : ¬ ((st.scannedPaths.find? fun dd => strStartsWith (join d.path f) dd).getD "") ≠ "")
    (h2 : join d.path f ∉ st.filePaths)
    (h3 : lookupName (resolveComponentName d.path (join d.path f)) ns = some existing) :
    processFile srcDir d (ns, st) f =
      (ns, { st with filePaths := st.filePaths ++ [join d.path f],
                     warnings := st.warnings ++
                       [⟨resolveComponentName d.path (join d.path f), join d.path f,
                         existing⟩] }) :=
  processFile_collision srcDir d ns st f existing h1 h2 h3

/-- Witness for C5: in directory `Foo`, after `Bar/index.vue` claimed the
name `Bar`, the file `Bar/Bar.vue` (which also resolves to `Bar`) yields no
Components, just the warning naming both file paths. -/
theorem claim5_witness :
    processFile "" { path := "Foo" } ([("Bar", "Foo/Bar/index.vue")], ⟨[], [], [], []⟩)
        "Bar/Bar.vue" =
      ([("Bar", "Foo/Bar/index.vue")],
       ⟨[], [⟨"Bar", "Foo/Bar/Bar.vue", "Foo/Bar/index.vue"⟩], ["Foo/Bar/Bar.vue"], []⟩) :=
  claim5_theorem "" { path := "Foo" } [("Bar", "Foo/Bar/index.vue")] ⟨[], [], [], []⟩
    "Bar/Bar.vue" "Foo/Bar/index.vue" (by decide) (by decide) (by decide)

/-- A resolved component whose `pascalName` starts with `App` but not with
the raw prefix string `app`, for the C6 counterexample. -/
def c6comp : Component :=
  { pascalName := "AppBar", kebabName := "app-bar", «import» := "", asyncImport := "",
    «export» := "default", filePath := "a/AppBar.vue", shortPath := "a/AppBar.vue",
    async := none, chunkName := "a/AppBar", global := false }

/-- C6 is false on the code: the `startsWith` test uses the raw configured
prefix case-sensitively, so with prefix `app` the resolved name `AppBar`
(which starts with `App`) is NOT left unchanged — it becomes `AppAppBar`. -/
theorem claim6_counterexample :
    strStartsWith c6comp.pascalName "App" = true ∧
    (prefixComponent (some "app") c6comp).pascalName = "AppAppBar" ∧
    ¬ (prefixComponent (some "app") c6comp).pascalName = "AppBar" := by
  decide

/-- Glob oracle for C6: the directory contains `Header.vue` and
`AppBar.vue`. -/
def c6glob : GlobbyFn := fun _ _ _ => ["Header.vue", "AppBar.vue"]

/-- C6 (amended): prefixing tests the name against the raw prefix string
case-sensitively.  With prefix `app`, `Header` becomes `AppHeader` /
`app-header`, while `AppBar` does not literally start with `app`, so its
pascal name becomes `AppAppBar`; its kebab name `app-bar` does start with
`app` and is left unchanged. -/
theorem claim6_theorem :
    ((scanComponents c6glob [{ path := "a", pfx := some "app" }] "").1.map fun c =>
      (c.pascalName, c.kebabName)) =
      [("AppHeader", "app-header"), ("LazyAppHeader", "lazy-app-header"),
       ("AppAppBar", "app-bar"), ("LazyAppAppBar", "lazy-app-bar")] := by
  decide

/-- C10: the in-place `dirs.sort(...)` leaves the caller's array holding a
permutation of exactly the elements it passed (each `ScanDir` value itself
unmodified), and the order can differ from the supplied order, as for
`[a, a/b]`, which the call reorders to `[a/b, a]`. -/
theorem claim10_theorem :
    (∀ dirs : List ScanDir, List.Perm (sortDirs dirs) dirs) ∧
    ((sortDirs [{ path := "a" }, { path := "a/b" }]).map fun d => d.path) = ["a/b", "a"] ∧
    (([{ path := "a" }, { path := "a/b" }] : List ScanDir).map fun d => d.path) =
      ["a", "a/b"] :=
  ⟨sortDirs_perm, by decide, by decide⟩
/-- Glob oracle for the C3 counterexample: one file `lazyThing.vue`. -/
def c3cglob : GlobbyFn := fun _ _ _ => ["lazyThing.vue"]

/-- C3 is false as stated: the lazy marker is prepended only when the name
does not already start with the literal string `lazy`.  For the file
`lazyThing.vue` the eager kebab name is `lazy-thing`, and the mandated lazy
twin keeps kebab name `lazy-thing` instead of `lazy-` ++ `lazy-thing`. -/
theorem claim3_counterexample :
    ((scanComponents c3cglob [{ path := "a" }] "").1.map fun c =>
      (c.pascalName, c.kebabName, c.filePath, c.async)) =
      [("LazyThing", "lazy-thing", "a/lazyThing.vue", none),
       ("LazyLazyThing", "lazy-thing", "a/lazyThing.vue", some true)] ∧
    ¬ ("lazy-thing" : String) = "lazy-" ++ "lazy-thing" :=
  ⟨by decide, by decide⟩

/-- C3 (amended): in a run without `extendComponent` hooks, the output is a
flat list of adjacent pairs — for each accepted file an eager Component
(`async` unset) immediately followed by a lazy Component (`async = true`)
with the same `filePath`; the lazy names are the eager names with the lazy
marker (`Lazy` / `lazy-`) prepended unless the eager name already starts
with the literal string `lazy`, in which case it is kept; distinct pairs
have distinct `filePath`s, so exactly two emitted Components share any one
file path. -/
theorem claim3_theorem (g : GlobbyFn) (dirs : List ScanDir) (srcDir : String)
    (h : ∀ d ∈ dirs, d.extendComponent = none) :
    ∃ pairs : List (Component × Component),
      (scanComponents g dirs srcDir).1 = pairs.flatMap (fun p => [p.1, p.2]) ∧
      (∀ p ∈ pairs,
        p.2.filePath = p.1.filePath ∧
        p.1.async = none ∧
        p.2.async = some true ∧
        p.2.pascalName = (if strStartsWith p.1.pascalName "lazy" then p.1.pascalName
                          else "Lazy" ++ p.1.pascalName) ∧
        p.2.kebabName = (if strStartsWith p.1.kebabName "lazy" then p.1.kebabName
                         else "lazy-" ++ p.1.kebabName)) ∧
      ((pairs.map fun p => p.1.filePath).Nodup) := by
  obtain ⟨pairs, hc, hg, hnd⟩ := scan_pairs g dirs srcDir h
  refine ⟨pairs, hc, ?_, hnd⟩
  intro p hp
  obtain ⟨g1, g2, g3, g4, g5, _⟩ := hg p hp
  exact ⟨g1, g2, g3, g4, g5⟩

/-- Glob oracle for the C3 witness: one file `Button.vue`. -/
def c3glob : GlobbyFn := fun _ _ _ => ["Button.vue"]

/-- Witness for C3 at a concrete hook-free run. -/
theorem claim3_witness :
    ∃ pairs : List (Component × Component),
      (scanComponents c3glob [{ path := "a" }] "").1 =
        pairs.flatMap (fun p => [p.1, p.2]) ∧
      (∀ p ∈ pairs,
        p.2.filePath = p.1.filePath ∧
        p.1.async = none ∧
        p.2.async = some true ∧
        p.2.pascalName = (if strStartsWith p.1.pascalName "lazy" then p.1.pascalName
                          else "Lazy" ++ p.1.pascalName) ∧
        p.2.kebabName = (if strStartsWith p.1.kebabName "lazy" then p.1.kebabName
                         else "lazy-" ++ p.1.kebabName)) ∧
      ((pairs.map fun p => p.1.filePath).Nodup) :=
  claim3_theorem c3glob [{ path := "a" }] ""
    (by intro d hd; rw [List.mem_singleton] at hd; rw [hd])

/-- Glob oracle for C7: one file `Foo.vue`. -/
def c7glob : GlobbyFn := fun _ _ _ => ["Foo.vue"]

/-- C7 is false as stated: without a hook, the `asyncImport` field of both
emitted Components stays the empty string; the default dynamic-import
snippet is produced, but it lands in the lazy Component's `import` field. -/
theorem claim7_counterexample :
    ((scanComponents c7glob [{ path := "a" }] "").1.map fun c => c.asyncImport) =
      ["", ""] ∧
    ((scanComponents c7glob [{ path := "a" }] "").1.map fun c => c.«import») =
      ["require(\x27a/Foo.vue\x27).default",
       asyncImportSnippet "a/Foo.vue" "a/Foo" "default"] ∧
    ¬ asyncImportSnippet "a/Foo.vue" "a/Foo" "default" = "" :=
  ⟨by decide, by decide, by decide⟩

/-- C7 (amended): in a hook-free run, each accepted file's pair has empty
`asyncImport` fields; the eager `import` is the default require snippet and
the lazy `import` is the default dynamic-import snippet built from the
file path, chunk name and export of the pair. -/
theorem claim7_theorem (g : GlobbyFn) (dirs : List ScanDir) (srcDir : String)
    (h : ∀ d ∈ dirs, d.extendComponent = none) :
    ∃ pairs : List (Component × Component),
      (scanComponents g dirs srcDir).1 = pairs.flatMap (fun p => [p.1, p.2]) ∧
      ∀ p ∈ pairs,
        p.1.asyncImport = "" ∧ p.2.asyncImport = "" ∧
        p.1.«import» = requireSnippet p.1.filePath p.1.«export» ∧
        p.2.«import» = asyncImportSnippet p.1.filePath p.1.chunkName p.1.«export» := by
  obtain ⟨pairs, hc, hg, _⟩ := scan_pairs g dirs srcDir h
  refine ⟨pairs, hc, ?_⟩
  intro p hp
  obtain ⟨_, _, _, _, _, g6, g7, g8, g9⟩ := hg p hp
  exact ⟨g6, g7, g8, g9⟩

/-- Witness for C7 at a concrete hook-free run. -/
theorem claim7_witness :
    ∃ pairs : List (Component × Component),
      (scanComponents c7glob [{ path := "a" }] "").1 =
        pairs.flatMap (fun p => [p.1, p.2]) ∧
      ∀ p ∈ pairs,
        p.1.asyncImport = "" ∧ p.2.asyncImport = "" ∧
        p.1.«import» = requireSnippet p.1.filePath p.1.«export» ∧
        p.2.«import» = asyncImportSnippet p.1.filePath p.1.chunkName p.1.«export» :=
  claim7_theorem c7glob [{ path := "a" }] ""
    (by intro d hd; rw [List.mem_singleton] at hd; rw [hd])
def matcherSpec (tags : List String) (components : List Component) : List Component :=
  tags.filterMap fun tag =>
    components.find? fun c => decide (c.pascalName = tag ∨ c.kebabName = tag)

theorem contains_pair_eq (p k t : String) :
    ([p, k].contains t) = decide (p = t ∨ k = t) := by
  by_cases h : p = t ∨ k = t
  · rw [decide_eq_true h]
    have ht : t ∈ [p, k] := by
      rcases h with h | h
      · rw [h]; exact List.mem_cons_self _ _
      · rw [h]; exact List.mem_cons_of_mem _ (List.mem_singleton_self _)
    exact List.elem_iff.mpr ht
  · rw [decide_eq_false h]
    apply Bool.eq_false_iff.mpr
    intro hc
    have ht := List.elem_iff.mp hc
    rcases List.mem_cons.mp ht with heq | ht2
    · exact h (Or.inl heq.symm)
    · rw [List.mem_singleton] at ht2
      exact h (Or.inr ht2.symm)

theorem matcher_foldl (components : List Component) (tags : List String)
    (acc : List Component) :
    tags.foldl (fun ms tag =>
      match components.find? (fun c => [c.pascalName, c.kebabName].contains tag) with
      | some m => ms ++ [m]
      | none => ms) acc = acc ++ matcherSpec tags components := by
  induction tags generalizing acc with
  | nil => simp [matcherSpec]
  | cons t ts ih =>
    rw [List.foldl_cons]
    have hpred : (fun c : Component => [c.pascalName, c.kebabName].contains t) =
        (fun c : Component => decide (c.pascalName = t ∨ c.kebabName = t)) :=
      funext fun c => contains_pair_eq c.pascalName c.kebabName t
    rw [hpred]
    rcases hf : components.find? (fun c => decide (c.pascalName = t ∨ c.kebabName = t))
      with _ | m
    · rw [ih]
      simp only [matcherSpec, List.filterMap_cons]
      rw [hf]
    · rw [ih]
      simp only [matcherSpec, List.filterMap_cons]
      rw [hf]
      simp

def c8hdr : Component :=
  { pascalName := "Header", kebabName := "header", «import» := "", asyncImport := "",
    «export» := "default", filePath := "f", shortPath := "s", async := none,
    chunkName := "c", global := false }

theorem claim8_theorem :
    (∀ (tags : List String) (components : List Component),
      matcher tags components = matcherSpec tags components) ∧
    (∀ (tags : List String) (components : List Component),
      (matcher tags components).length ≤ tags.length) ∧
    matcher ["Header", "missing-tag"] [c8hdr] = [c8hdr] := by
  have hm : ∀ (tags : List String) (components : List Component),
      matcher tags components = matcherSpec tags components := by
    intro tags components
    unfold matcher
    rw [matcher_foldl components tags []]
    simp
  refine ⟨hm, ?_, by decide⟩
  intro tags components
  rw [hm]
  exact List.length_filterMap_le _ _
/-- Glob oracle for C9: one file `index.vue` directly in the root. -/
def c9glob : GlobbyFn := fun _ _ _ => ["index.vue"]

/-- C9 is false in its parenthetical: for `index.vue` directly in the scan
root the eager names are both empty as claimed, but the lazy variant's
kebab name is `"lazy-"` (marker plus separator), not the bare marker
`"lazy"`. -/
theorem claim9_counterexample :
    ((scanComponents c9glob [{ path := "a" }] "").1.map fun c =>
      (c.pascalName, c.kebabName)) = [("", ""), ("Lazy", "lazy-")] ∧
    ¬ ("lazy-" : String) = "lazy" :=
  ⟨by decide, by decide⟩

/-- The single `ScanDir` configuration used by claim C9: no prefix, no
`extendComponent` hook. -/
def c9dir (root : String) (pat : Option Patterns) (ign : Option (List String))
    (gl : JsGlobal) : ScanDir :=
  { path := root, pattern := pat, ignore := ign, pfx := none, global := gl,
    extendComponent := none }

/-- C9 (amended): for a file whose pascal-cased extensionless basename is
`Index` sitting directly in the scan root (empty relative path from the root
to its parent), a fresh prefix-free hook-free run emits an eager Component
with `pascalName = ""` and `kebabName = ""`, and its lazy twin has
`pascalName = "Lazy"` and `kebabName = "lazy-"` (marker plus separator with
empty remainder, not the bare marker). -/
theorem claim9_theorem (g : GlobbyFn) (pat : Option Patterns) (ign : Option (List String))
    (gl : JsGlobal) (root f srcDir : String)
    (hg : g pat root (ign.getD []) = [f])
    (h1 : pascalCase (basename2 (join root f) (extname (join root f))) = "Index")
    (h2 : relative root (dirname (join root f)) = "") :
    ((scanComponents g [c9dir root pat ign gl] srcDir).1.map
      fun c => (c.pascalName, c.kebabName)) = [("", ""), ("Lazy", "lazy-")] := by
  have hname : resolveComponentName root (join root f) = "" := by
    simp only [resolveComponentName]
    rw [h1, h2]
    rw [if_pos (Or.inl rfl)]
    decide
  have hskip : ¬ ((List.find? (fun dd => strStartsWith (join root f) dd)
      ([] : List String)).getD "") ≠ "" := by simp
  have hmem : join root f ∉ ([] : List String) := by simp
  have hlook : lookupName (resolveComponentName root (join root f)) [] = none := rfl
  simp only [scanComponents, sortDirs, insertDir, List.foldl_cons, List.foldl_nil,
    scanOneDir, c9dir]
  rw [hg]
  rw [List.foldl_cons, List.foldl_nil]
  rw [processFile_emit srcDir ⟨root, pat, ign, none, gl, none⟩ [] ⟨[], [], [], []⟩ f
    hskip hmem hlook]
  rw [hname]
  simp [buildPair, prefixComponent]
  decide

/-- Witness for C9 at the concrete run with root `a` and file `index.vue`. -/
theorem claim9_witness :
    ((scanComponents c9glob [c9dir "a" none none JsGlobal.undef] "").1.map
      fun c => (c.pascalName, c.kebabName)) = [("", ""), ("Lazy", "lazy-")] :=
  claim9_theorem c9glob none none JsGlobal.undef "a" "index.vue" "" rfl
    (by decide) (by decide)
end Scan
